import Mathlib

/-!
Shallow embedding of the `lifeguard` object pool (`src/lib.rs`).

The pool stores its stash in a `Vec<T>` behind a `RefCell`; we model the
stash as a `List T` with the same orientation as the Rust `Vec`
(index 0 at the front, `push` appends at the end, `pop` removes the last
element).  A `Recycled` handle is a structure holding the optional slot
`value : Option T` and, standing in for the `&RefCell<Vec<T>>` back
reference, a pool identifier `pool : Nat`.  Stateful operations take the
stash explicitly and return the updated stash; the multi-pool view of a
mutation through the back reference is expressed by a world function
`Nat → List T` updated only at the handle's pool index.  Rust panics are
modelled as `Except.error` carrying the panic message.
-/

/-- `trait Recycleable { fn new() -> Self; fn reset(&mut self); }` -/
class Recycleable (T : Type) where
  new : T
  reset : T → T

/-- `trait InitializeWith<A> { fn initialize_with(&mut self, source: A); }` -/
class InitializeWith (A : Type) (T : Type) where
  initialize_with : T → A → T

/-- `impl Recycleable for String`: `new` = empty string, `reset` = `clear`. -/
instance : Recycleable String where
  new := ""
  reset _ := ""

/-- `impl<T> Recycleable for Vec<T>`: `new` = empty vector, `reset` = `clear`. -/
instance (α : Type) : Recycleable (List α) where
  new := []
  reset _ := []

/-- `impl<A: AsRef<str>> InitializeWith<A> for String`: `push_str` appends the
source view onto the target.  We instantiate the source type at `String`. -/
instance : InitializeWith String String where
  initialize_with t source := t ++ source

/-- `struct Recycled<'pool, T> { value: Option<T>, pool: &'pool RefCell<Vec<T>> }`.
The borrowed pool pointer becomes a pool identifier. -/
structure Recycled (T : Type) where
  value : Option T
  pool : Nat
deriving DecidableEq

namespace Recycled

/-- `Recycled::new(pool, value)`: adopt `value`, slot full. -/
def new (pool : Nat) (value : T) : Recycled T :=
  ⟨some value, pool⟩

/-- `Recycled::new_from(pool, value, source)`: run `initialize_with` on the
value, then adopt it. -/
def new_from [InitializeWith A T] (pool : Nat) (value : T) (source : A) :
    Recycled T :=
  ⟨some (InitializeWith.initialize_with value source), pool⟩

/-- `impl Drop for Recycled`: if the slot is full, take the value, reset it and
push it onto the stash behind the handle's pool reference; otherwise do
nothing.  The argument is that stash, the result the stash after the drop. -/
def drop [Recycleable T] (self : Recycled T) (stash : List T) : List T :=
  match self.value with
  | some v => stash ++ [Recycleable.reset v]
  | none => stash

/-- The effect of dropping the handle on a world of pools: only the stash
behind the handle's back reference is mutated. -/
def dropW [Recycleable T] (self : Recycled T) (w : Nat → List T) :
    Nat → List T :=
  fun i => if i = self.pool then self.drop (w i) else w i

/-- `Recycled::detach`: `self.value.take().unwrap()` (panic modelled as
`none`), then `drop(self)` runs on the now-empty handle, then the value is
returned.  Returns the value together with the stash after that drop. -/
def detach [Recycleable T] (self : Recycled T) (stash : List T) :
    Option (T × List T) :=
  match self.value with
  | some v => some (v, Recycled.drop ⟨none, self.pool⟩ stash)
  | none => none

/-- `impl AsRef<T> for Recycled`: dereference the slot, panicking with a
descriptive message when it is empty. -/
def as_ref (self : Recycled T) : Except String T :=
  match self.value with
  | some v => Except.ok v
  | none => Except.error "Recycled<T> smartpointer missing its value."

/-- `impl AsMut<T> for Recycled`: same slot access as `as_ref`; a write of `w`
through the returned mutable reference replaces the slot's contents. -/
def as_mut_write (self : Recycled T) (w : T) : Except String (Recycled T) :=
  match self.value with
  | some _ => Except.ok ⟨some w, self.pool⟩
  | none => Except.error "Recycled<T> smartpointer missing its value."

end Recycled

namespace Pool

/-- `Pool::with_size(size)`: collect `size` freshly constructed values. -/
def with_size (T : Type) [Recycleable T] (size : Nat) : List T :=
  (List.range size).map fun _ => (Recycleable.new : T)

/-- `Pool::attach(value)`: wrap an externally supplied value in a handle bound
to pool `p`; the stash is untouched. -/
def attach (T : Type) [Recycleable T] (p : Nat) (value : T) : Recycled T :=
  Recycled.new p value

/-- `Pool::detached()`: `self.values.borrow_mut().pop()` (`Vec::pop` removes
the last element), falling back to `T::new()` on an empty stash. -/
def detached [Recycleable T] (s : List T) : T × List T :=
  match s.getLast? with
  | some v => (v, s.dropLast)
  | none => (Recycleable.new, s)

/-- `Pool::new()`: acquire via `detached`, wrap in a handle bound to pool
`p`. -/
def new (T : Type) [Recycleable T] (s : List T) (p : Nat) :
    Recycled T × List T :=
  let t := detached s
  (Recycled.new p t.1, t.2)

/-- `Pool::new_from(source)`: acquire via `detached`, wrap via
`Recycled::new_from` (which runs `initialize_with`). -/
def new_from (T : Type) [Recycleable T] [InitializeWith A T] (s : List T)
    (p : Nat) (source : A) : Recycled T × List T :=
  let t := detached s
  (Recycled.new_from p t.1 source, t.2)

/-- `Pool::size()`: length of the stash. -/
def size (s : List T) : Nat :=
  s.length

end Pool

/-- Modelled from the spec: §8 test property 9 and scenario S5 are stated for
a poolable type whose identity stays observable across reset ("e.g. capacity
or an embedded tag"); no such type is shipped under `src/`.  `reset` clears
the logical contents but keeps the reserved capacity, like `Vec::clear`. -/
structure Buf where
  cap : Nat
  data : List Nat
deriving DecidableEq

instance : Recycleable Buf where
  new := ⟨0, []⟩
  reset b := ⟨b.cap, []⟩

/-- Acquire `k` handles in sequence from pool `p` via `Pool::new`, returning
the handles in acquisition order together with the final stash. -/
def acquireK (T : Type) [Recycleable T] :
    Nat → List T → Nat → List (Recycled T) × List T
  | 0, s, _ => ([], s)
  | Nat.succ k, s, p =>
    let hd := Pool.new T s p
    let rest := acquireK T k hd.2 p
    (hd.1 :: rest.1, rest.2)

/-- Drop every handle in the list, in order, threading the stash through the
destructors. -/
def dropAll (T : Type) [Recycleable T] (hs : List (Recycled T)) (s : List T) :
    List T :=
  hs.foldl (fun acc h => Recycled.drop h acc) s

/-- A value is idle iff it is freshly constructed (`T::new()`) or the result
of a `reset` — the two forms in which values ever enter the stash. -/
def Idle (T : Type) [Recycleable T] (x : T) : Prop :=
  x = Recycleable.new ∨ ∃ y, x = Recycleable.reset y

/-- One stash-mutating step of the pool: a return (the drop of a handle
holding `v`, covering both values acquired from the pool and values donated
via `attach`) or an acquisition (`new`, `new_from` and `detached` all pop
via `detached`).  These are the only operations that touch the stash. -/
inductive Op (T : Type) where
  | ret (v : T)
  | acquire

/-- Run a sequence of stash-mutating steps from an initial stash. -/
def runOps (T : Type) [Recycleable T] : List (Op T) → List T → List T
  | [], s => s
  | Op.ret v :: rest, s => runOps T rest (Recycled.drop ⟨some v, 0⟩ s)
  | Op.acquire :: rest, s => runOps T rest (Pool.detached s).2

/-! Helper lemmas shared by the claim theorems. -/

theorem detached_concat {T : Type} [Recycleable T] (s : List T) (v : T) :
    Pool.detached (s ++ [v]) = (v, s) := by
  simp [Pool.detached]

theorem detached_nil (T : Type) [Recycleable T] :
    Pool.detached ([] : List T) = (Recycleable.new, []) := rfl

theorem with_size_succ (T : Type) [Recycleable T] (N : Nat) :
    Pool.with_size T (N + 1) = Pool.with_size T N ++ [Recycleable.new] := by
  simp [Pool.with_size, List.range_succ]

theorem with_size_length (T : Type) [Recycleable T] (N : Nat) :
    (Pool.with_size T N).length = N := by
  simp [Pool.with_size]

theorem drop_some {T : Type} [Recycleable T] (s : List T) (p : Nat) (v : T) :
    Recycled.drop (⟨some v, p⟩ : Recycled T) s = s ++ [Recycleable.reset v] := rfl

theorem drop_none {T : Type} [Recycleable T] (s : List T) (p : Nat) :
    Recycled.drop (⟨none, p⟩ : Recycled T) s = s := rfl

theorem new_concat (T : Type) [Recycleable T] (s : List T) (v : T) (p : Nat) :
    Pool.new T (s ++ [v]) p = (Recycled.new p v, s) := by
  simp [Pool.new, detached_concat]

example : Pool.with_size String 2 = ["", ""] := by decide
example : Pool.detached (["a", "b"] : List String) = ("b", ["a"]) := by decide
example : Recycled.drop (⟨some "xy", 0⟩ : Recycled String) ["a"] = ["a", ""] := by decide
example :
    Recycled.detach (⟨some "xy", 0⟩ : Recycled String) ["a"] = some ("xy", ["a"]) := by
  decide
example :
    (Pool.new_from String (Pool.with_size String 0) 0 "world").1.value
      = some "world" := by decide

/-- C5: after `with_size(N)` the pool's size is `N` and the stash holds only
freshly constructed values. -/
theorem with_size_prepopulates (T : Type) [Recycleable T] (N : Nat) :
    Pool.size (Pool.with_size T N) = N ∧
    ∀ x ∈ Pool.with_size T N, x = Recycleable.new := by
  refine ⟨by simp [Pool.size, with_size_length], ?_⟩
  intro x hx
  simp [Pool.with_size] at hx
  exact hx.2

/-- C6: `detached` (and hence `new`) pops the last stash element when the
stash is non-empty and falls back to a fresh `T::new()` when it is empty;
after `with_size(N)` with `N ≥ 1`, one `new()` leaves size `N - 1`.  Both
operations are total functions: they never fail, block or wait. -/
theorem acquire_pops_or_creates (T : Type) [Recycleable T] (s : List T)
    (v : T) (N p : Nat) :
    Pool.detached ([] : List T) = (Recycleable.new, []) ∧
    Pool.detached (s ++ [v]) = (v, s) ∧
    (Pool.new T (s ++ [v]) p).1.value = some v ∧
    Pool.size (Pool.new T (Pool.with_size T (N + 1)) p).2 = N := by
  refine ⟨rfl, detached_concat s v, ?_, ?_⟩
  · simp [Pool.new, Recycled.new, detached_concat]
  · simp [Pool.new, Pool.size, with_size_succ, detached_concat, with_size_length]

/-- C2: `detach` consumes the handle and yields its value by value; the
stash is unchanged (the drop of the emptied handle pushes nothing, performs
no reset and no return). -/
theorem detach_suppresses_return (T : Type) [Recycleable T] (s : List T)
    (h : Recycled T) (v : T) (hv : h.value = some v) :
    Recycled.detach h s = some (v, s) ∧
    Recycled.drop (⟨none, h.pool⟩ : Recycled T) s = s := by
  refine ⟨?_, rfl⟩
  simp [Recycled.detach, hv, Recycled.drop]

/-- Witness for `detach_suppresses_return`. -/
theorem detach_suppresses_return_witness :
    (⟨some "x", 0⟩ : Recycled String).value = some "x" ∧
    (Recycled.detach (⟨some "x", 0⟩ : Recycled String) ["a"] = some ("x", ["a"]) ∧
     Recycled.drop (⟨none, (⟨some "x", 0⟩ : Recycled String).pool⟩ : Recycled String) ["a"]
       = ["a"]) :=
  ⟨rfl, detach_suppresses_return String ["a"] ⟨some "x", 0⟩ "x" rfl⟩

/-- C9: every construction path of a handle leaves the slot populated, a
write through `as_mut` keeps it populated, and dereferencing an empty slot
fails loudly with the descriptive panic message; the empty slot only arises
inside `detach`, which consumes the handle. -/
theorem slot_populated_empty_deref_fails (T A : Type) [Recycleable T]
    [InitializeWith A T] (s : List T) (p : Nat) (v w : T) (src : A) :
    (Recycled.new p v).value.isSome = true ∧
    (Recycled.new_from p v src).value.isSome = true ∧
    (Pool.new T s p).1.value.isSome = true ∧
    (Pool.new_from T s p src).1.value.isSome = true ∧
    (Pool.attach T p v).value.isSome = true ∧
    Recycled.as_mut_write (Recycled.new p v) w = Except.ok ⟨some w, p⟩ ∧
    Recycled.as_ref (⟨some v, p⟩ : Recycled T) = Except.ok v ∧
    Recycled.as_ref (⟨none, p⟩ : Recycled T)
      = Except.error "Recycled<T> smartpointer missing its value." ∧
    Recycled.as_mut_write (⟨none, p⟩ : Recycled T) w
      = Except.error "Recycled<T> smartpointer missing its value." :=
  ⟨rfl, rfl, rfl, rfl, rfl, rfl, rfl, rfl, rfl⟩

/-- C1: dropping a non-detached handle resets its value and pushes the reset
value onto the stash; after an acquire-mutate-drop cycle (the mutation writes
`w` through `as_mut`, and `reset` sends `w` back to the empty state as the
resettable contract demands) the next acquisition observes the empty `T`. -/
theorem drop_resets_then_returns (T : Type) [Recycleable T] (s : List T)
    (p : Nat) (h : Recycled T) (v w : T) (hv : h.value = some v)
    (hw : Recycleable.reset w = Recycleable.new) :
    Recycled.drop h s = s ++ [Recycleable.reset v] ∧
    Recycled.as_mut_write (Pool.new T s p).1 w = Except.ok ⟨some w, p⟩ ∧
    (Pool.new T (Recycled.drop (⟨some w, p⟩ : Recycled T)
        (Pool.new T s p).2) p).1.value = some (Recycleable.new : T) := by
  refine ⟨by simp [Recycled.drop, hv], rfl, ?_⟩
  rw [drop_some, hw]
  simp [Pool.new, Recycled.new, detached_concat]

/-- Witness for `drop_resets_then_returns`. -/
theorem drop_resets_then_returns_witness :
    (⟨some "x", 0⟩ : Recycled String).value = some "x" ∧
    Recycleable.reset "hello" = (Recycleable.new : String) ∧
    (Recycled.drop (⟨some "x", 0⟩ : Recycled String) []
        = [] ++ [Recycleable.reset "x"] ∧
     Recycled.as_mut_write (Pool.new String [] 0).1 "hello"
        = Except.ok ⟨some "hello", 0⟩ ∧
     (Pool.new String (Recycled.drop (⟨some "hello", 0⟩ : Recycled String)
        (Pool.new String [] 0).2) 0).1.value = some (Recycleable.new : String)) :=
  ⟨rfl, rfl, drop_resets_then_returns String [] 0 ⟨some "x", 0⟩ "x" "hello" rfl rfl⟩

/-- C3: the stash is LIFO — after returning `a` and then `b` (both fixed by
`reset`, as for identity-observable values), the next two acquisitions, via
`detached` or via `new`, yield `b` first and then `a`. -/
theorem lifo_reuse (T : Type) [Recycleable T] (s : List T) (p pa pb : Nat)
    (a b : T) (ha : Recycleable.reset a = a) (hb : Recycleable.reset b = b) :
    Pool.detached (Recycled.drop (⟨some b, pb⟩ : Recycled T)
        (Recycled.drop (⟨some a, pa⟩ : Recycled T) s))
      = (b, Recycled.drop (⟨some a, pa⟩ : Recycled T) s) ∧
    Pool.detached (Recycled.drop (⟨some a, pa⟩ : Recycled T) s) = (a, s) ∧
    (Pool.new T (Recycled.drop (⟨some b, pb⟩ : Recycled T)
        (Recycled.drop (⟨some a, pa⟩ : Recycled T) s)) p).1.value = some b ∧
    (Pool.new T (Pool.new T (Recycled.drop (⟨some b, pb⟩ : Recycled T)
        (Recycled.drop (⟨some a, pa⟩ : Recycled T) s)) p).2 p).1.value
      = some a := by
  simp only [drop_some, ha, hb]
  refine ⟨detached_concat _ b, detached_concat s a, ?_, ?_⟩
  · simp only [new_concat, Recycled.new]
  · simp only [new_concat, Recycled.new]

/-- Witness for `lifo_reuse`, with capacity-tagged buffers 10 and 20. -/
theorem lifo_reuse_witness :
    Recycleable.reset (⟨10, []⟩ : Buf) = (⟨10, []⟩ : Buf) ∧
    Recycleable.reset (⟨20, []⟩ : Buf) = (⟨20, []⟩ : Buf) ∧
    (Pool.detached (Recycled.drop (⟨some ⟨20, []⟩, 0⟩ : Recycled Buf)
        (Recycled.drop (⟨some ⟨10, []⟩, 0⟩ : Recycled Buf) []))
      = (⟨20, []⟩, Recycled.drop (⟨some ⟨10, []⟩, 0⟩ : Recycled Buf) []) ∧
     Pool.detached (Recycled.drop (⟨some ⟨10, []⟩, 0⟩ : Recycled Buf) [])
      = (⟨10, []⟩, []) ∧
     (Pool.new Buf (Recycled.drop (⟨some ⟨20, []⟩, 0⟩ : Recycled Buf)
        (Recycled.drop (⟨some ⟨10, []⟩, 0⟩ : Recycled Buf) [])) 0).1.value
      = some ⟨20, []⟩ ∧
     (Pool.new Buf (Pool.new Buf (Recycled.drop (⟨some ⟨20, []⟩, 0⟩ : Recycled Buf)
        (Recycled.drop (⟨some ⟨10, []⟩, 0⟩ : Recycled Buf) [])) 0).2 0).1.value
      = some ⟨10, []⟩) :=
  ⟨rfl, rfl, lifo_reuse Buf [] 0 0 0 ⟨10, []⟩ ⟨20, []⟩ rfl rfl⟩

/-- C7: dropping the handle produced by `attach` on pool `p` pushes the
donated value (reset) onto `p`'s stash, growing its size by exactly one,
and leaves every other pool's stash untouched. -/
theorem attach_routes_to_this_pool (T : Type) [Recycleable T]
    (w : Nat → List T) (p q : Nat) (v : T) (hq : q ≠ p) :
    Pool.size (Recycled.dropW (Pool.attach T p v) w p)
      = Pool.size (w p) + 1 ∧
    Recycled.dropW (Pool.attach T p v) w q = w q := by
  constructor
  · simp [Recycled.dropW, Pool.attach, Recycled.new, Recycled.drop, Pool.size]
  · simp [Recycled.dropW, Pool.attach, Recycled.new, hq]

/-- Witness for `attach_routes_to_this_pool`, pools 0 and 1. -/
theorem attach_routes_to_this_pool_witness :
    (1 : Nat) ≠ 0 ∧
    (Pool.size (Recycled.dropW (Pool.attach String 0 "gift") (fun _ => []) 0)
        = Pool.size ((fun _ => ([] : List String)) 0) + 1 ∧
     Recycled.dropW (Pool.attach String 0 "gift") (fun _ => []) 1
        = (fun _ => ([] : List String)) 1) :=
  ⟨by decide, attach_routes_to_this_pool String (fun _ => []) 0 1 "gift" (by decide)⟩

/-- C8: `new_from` acquires exactly as `new` does (same stash afterwards,
same pool binding) and applies `initialize_with(source)` to the acquired
value before wrapping; concretely, on a string pool of size 0, `new_from
"world"` followed by `detach` yields `"world"` with the stash left empty. -/
theorem new_from_acquires_then_initializes (T A : Type) [Recycleable T]
    [InitializeWith A T] (s : List T) (p : Nat) (src : A) :
    (Pool.new_from T s p src).1.value
      = some (InitializeWith.initialize_with (Pool.detached s).1 src) ∧
    (Pool.new_from T s p src).2 = (Pool.new T s p).2 ∧
    (Pool.new_from T s p src).1.pool = (Pool.new T s p).1.pool ∧
    Recycled.detach (Pool.new_from String (Pool.with_size String 0) 0 "world").1
        (Pool.new_from String (Pool.with_size String 0) 0 "world").2
      = some ("world", []) ∧
    Pool.size (Pool.new_from String (Pool.with_size String 0) 0 "world").2
      = 0 := by
  refine ⟨rfl, rfl, rfl, by decide, rfl⟩

theorem eq_nil_or_append_singleton {T : Type} (s : List T) :
    s = [] ∨ ∃ l v, s = l ++ [v] := by
  rcases List.eq_nil_or_concat s with h | ⟨l, v, h⟩
  · exact Or.inl h
  · exact Or.inr ⟨l, v, by simpa using h⟩

theorem detached_stash_length (T : Type) [Recycleable T] (s : List T) :
    (Pool.detached s).2.length = s.length - 1 := by
  rcases eq_nil_or_append_singleton s with rfl | ⟨l, v, rfl⟩
  · rfl
  · rw [detached_concat]
    simp

theorem acquireK_stash_length (T : Type) [Recycleable T] (k : Nat)
    (s : List T) (p : Nat) :
    ((acquireK T k s p).2).length = s.length - k := by
  induction k generalizing s with
  | zero => rfl
  | succ k ih =>
    simp only [acquireK]
    rw [ih]
    rw [show (Pool.new T s p).2 = (Pool.detached s).2 from rfl,
      detached_stash_length]
    omega

theorem acquireK_count (T : Type) [Recycleable T] (k : Nat) (s : List T)
    (p : Nat) : ((acquireK T k s p).1).length = k := by
  induction k generalizing s with
  | zero => rfl
  | succ k ih =>
    simp only [acquireK, List.length_cons]
    rw [ih]

theorem acquireK_all_some (T : Type) [Recycleable T] (k : Nat) (s : List T)
    (p : Nat) : ∀ h ∈ (acquireK T k s p).1, h.value.isSome = true := by
  induction k generalizing s with
  | zero => intro h hh; cases hh
  | succ k ih =>
    intro h hh
    simp only [acquireK, List.mem_cons] at hh
    rcases hh with rfl | hh
    · rfl
    · exact ih _ h hh

theorem dropAll_length (T : Type) [Recycleable T] (hs : List (Recycled T))
    (s : List T) (hall : ∀ h ∈ hs, h.value.isSome = true) :
    (dropAll T hs s).length = s.length + hs.length := by
  induction hs generalizing s with
  | nil => rfl
  | cons h hs ih =>
    obtain ⟨v, hv⟩ := Option.isSome_iff_exists.mp (hall h (List.mem_cons_self h hs))
    obtain ⟨val, pool⟩ := h
    cases hv
    simp only [dropAll, List.foldl_cons] at ih ⊢
    rw [ih _ fun h hh => hall h (List.mem_cons_of_mem _ hh), drop_some]
    simp
    omega

/-- C4: acquiring `k` handles from a pool built with `with_size(N)` and then
dropping them all leaves the stash holding `max N k` values — the number of
distinct values ever created for the pool (`N` at construction plus one
fresh value for each acquisition beyond the stash's supply), which is `N`
itself whenever the high-water mark `k` of concurrently live handles stays
within `N`. -/
theorem acquire_k_drop_all_size (T : Type) [Recycleable T] (N k p : Nat) :
    Pool.size (dropAll T (acquireK T k (Pool.with_size T N) p).1
      (acquireK T k (Pool.with_size T N) p).2) = max N k := by
  rw [Pool.size,
    dropAll_length T _ _ (acquireK_all_some T k (Pool.with_size T N) p),
    acquireK_stash_length, acquireK_count, with_size_length]
  omega

theorem mem_with_size {T : Type} [Recycleable T] {N : Nat} {x : T}
    (hx : x ∈ Pool.with_size T N) : x = Recycleable.new := by
  simp [Pool.with_size] at hx
  exact hx.2

theorem idle_new (T : Type) [Recycleable T] : Idle T (Recycleable.new : T) :=
  Or.inl rfl

theorem idle_reset (T : Type) [Recycleable T] (y : T) :
    Idle T (Recycleable.reset y) :=
  Or.inr ⟨y, rfl⟩

theorem drop_preserves_idle (T : Type) [Recycleable T] (h : Recycled T)
    (s : List T) (hs : ∀ x ∈ s, Idle T x) :
    ∀ x ∈ Recycled.drop h s, Idle T x := by
  obtain ⟨val, pool⟩ := h
  cases val with
  | none => exact hs
  | some v =>
    intro x hx
    rw [drop_some] at hx
    rcases List.mem_append.mp hx with h1 | h2
    · exact hs x h1
    · rw [List.mem_singleton] at h2
      subst h2
      exact idle_reset T v

theorem detached_stash_idle (T : Type) [Recycleable T] (s : List T)
    (hs : ∀ x ∈ s, Idle T x) : ∀ x ∈ (Pool.detached s).2, Idle T x := by
  rcases eq_nil_or_append_singleton s with rfl | ⟨l, v, rfl⟩
  · exact hs
  · rw [detached_concat]
    intro x hx
    exact hs x (List.mem_append.mpr (Or.inl hx))

theorem detached_value_idle (T : Type) [Recycleable T] (s : List T)
    (hs : ∀ x ∈ s, Idle T x) : Idle T (Pool.detached s).1 := by
  rcases eq_nil_or_append_singleton s with rfl | ⟨l, v, rfl⟩
  · exact idle_new T
  · rw [detached_concat]
    exact hs v (List.mem_append.mpr (Or.inr (List.mem_singleton_self v)))

theorem runOps_idle (T : Type) [Recycleable T] (ops : List (Op T)) :
    ∀ s : List T, (∀ x ∈ s, Idle T x) → ∀ x ∈ runOps T ops s, Idle T x := by
  induction ops with
  | nil => intro s hs; exact hs
  | cons op rest ih =>
    intro s hs
    cases op with
    | ret v => exact ih _ (drop_preserves_idle T ⟨some v, 0⟩ s hs)
    | acquire => exact ih _ (detached_stash_idle T s hs)

/-- C10: invariant — after any sequence of stash-mutating operations on a
pool built with `with_size(N)`, every value residing in the stash is idle
(freshly constructed or the result of a reset): values enter the stash only
prefilled by `with_size` or reset-then-pushed by handle destruction (also
for values donated via `attach` with non-empty content), and nothing mutates
a stashed value.  Consequently the target that `new_from` hands to
`initialize_with` — the first component of `detached` — is always idle, so
`initialize_with`'s empty-target precondition holds. -/
theorem stash_values_always_idle (T : Type) [Recycleable T]
    (ops : List (Op T)) (N : Nat) :
    (∀ x ∈ runOps T ops (Pool.with_size T N), Idle T x) ∧
    Idle T (Pool.detached (runOps T ops (Pool.with_size T N))).1 := by
  have init : ∀ x ∈ Pool.with_size T N, Idle T x := by
    intro x hx
    rw [mem_with_size hx]
    exact idle_new T
  exact ⟨runOps_idle T ops _ init,
    detached_value_idle T _ (runOps_idle T ops _ init)⟩
